import Mathlib

/-!
Shallow embedding of the FlipFile.online front end, covering the parts of the
code the specification makes claims about:

* `file-validator.js` — the `FileValidator` class (size / extension / MIME /
  magic-number / XSS / malware checks and the accumulated error list);
* `security-headers.js` — `XSSProtection.validateFile` (dangerous-extension
  filter);
* `tools.js` — `convertImagesToPdf` (image-to-PDF conversion, A4 scaling,
  one page per image);
* the `MemoryMonitor` class (`isMemoryCritical`).

Modelling conventions:

* A browser `File` is a record of its declared name, declared MIME type,
  reported byte length (`size`) and content bytes.
* `FileReader.readAsText` is modelled by decoding each byte as its code
  point (`Char.ofNat`), which agrees with the browser's UTF-8 decoding on
  ASCII content; every byte pattern the validator looks for is ASCII.
* JavaScript number arithmetic is modelled exactly over `ℚ`.  For the two
  places this matters the float computation is exact as well: the A4 page
  constants and the memory threshold `0.9 * 500 * 1024 * 1024` (whose IEEE-754
  double product is exactly `471859200`).
* Asynchronous reads always succeed; the claims under study only concern the
  successful path.
-/

/-- A candidate upload: declared name, declared MIME type, reported byte
length and content bytes (each entry `< 256`). -/
structure JSFile where
  name : String
  type : String
  size : Nat
  bytes : List Nat

/-- `FileReader.readAsText`: decode bytes to characters code-point-wise
(identical to UTF-8 on ASCII content). -/
def textOf (bs : List Nat) : List Char := bs.map Char.ofNat

/-- JavaScript `hay.includes(pat)` on strings, at the character-list level. -/
def containsSeq (pat : List Char) : List Char → Bool
  | [] => pat.isEmpty
  | c :: cs => pat.isPrefixOf (c :: cs) || containsSeq pat cs

namespace XSSProtection

/-- `XSSProtection.dangerousExtensions` from security-headers.js. -/
def dangerousExtensions : List String :=
  [".exe", ".bat", ".cmd", ".sh", ".php", ".js", ".html",
   ".htm", ".vbs", ".ps1", ".jar", ".py"]

/-- `XSSProtection.validateFile`: the lowercased file name must not end with
any dangerous extension.  (`fileName.endsWith(ext)` is `isSuffixOf` on the
character lists; `toLowerCase` is `Char.toLower` character-wise.) -/
def validateFile (file : JSFile) : Bool :=
  let fileName := file.name.data.map Char.toLower
  !(dangerousExtensions.any (fun e => e.data.isSuffixOf fileName))

end XSSProtection

namespace FileValidator

/-- The `this.config` object built by the `FileValidator` constructor
(the `allowedTypes` groups are separate definitions below). -/
structure Config where
  maxSize : Nat
  scanForMalware : Bool
  validateMagicNumbers : Bool

/-- Constructor values: `maxSize: 100 * 1024 * 1024`, both scan flags on. -/
def config : Config := { maxSize := 100 * 1024 * 1024,
                         scanForMalware := true,
                         validateMagicNumbers := true }

/-- `config.allowedTypes.pdf`. -/
def allowedTypesPdf : List String := ["application/pdf"]

/-- `config.allowedTypes.images`. -/
def allowedTypesImages : List String :=
  ["image/jpeg", "image/jpg", "image/png", "image/svg+xml", "image/tiff"]

/-- `config.allowedTypes.office`. -/
def allowedTypesOffice : List String :=
  ["application/msword",
   "application/vnd.openxmlformats-officedocument.wordprocessingml.document",
   "application/vnd.ms-excel",
   "application/vnd.openxmlformats-officedocument.spreadsheetml.sheet",
   "application/vnd.ms-powerpoint",
   "application/vnd.openxmlformats-officedocument.presentationml.presentation"]

/-- JavaScript `str.split('.')` at the character-list level: splits at every
`'.'`, keeping empty segments, and maps the empty string to `[""]`. -/
def jsSplitDot : List Char → List (List Char)
  | [] => [[]]
  | c :: cs =>
      if c = '.' then [] :: jsSplitDot cs
      else
        match jsSplitDot cs with
        | [] => [[c]]
        | seg :: rest => (c :: seg) :: rest

/-- The extension allow-list of `isAllowedExtension`. -/
def allowedExtensions : List String :=
  ["pdf", "jpg", "jpeg", "png", "svg", "tiff",
   "doc", "docx", "xls", "xlsx", "ppt", "pptx"]

/-- `isAllowedExtension`: lowercase the name, split on `'.'`, take the last
segment (`pop`), and test membership in the allow-list. -/
def isAllowedExtension (filename : String) : Bool :=
  let ext := (jsSplitDot (filename.data.map Char.toLower)).getLastD []
  allowedExtensions.contains (String.mk ext)

/-- `isAllowedMimeType`: membership in the flattened `allowedTypes` groups. -/
def isAllowedMimeType (mimeType : String) : Bool :=
  (allowedTypesPdf ++ allowedTypesImages ++ allowedTypesOffice).contains mimeType

/-- One hex digit as produced by `b.toString(16)` after `.toUpperCase()`. -/
def hexDigitChar (n : Nat) : Char :=
  if n < 10 then Char.ofNat (48 + n) else Char.ofNat (65 + (n - 10))

/-- `b.toString(16).padStart(2, '0')`, uppercased, for a byte `b < 256`. -/
def byteToHex (b : Nat) : List Char :=
  [hexDigitChar (b / 16 % 16), hexDigitChar (b % 16)]

/-- The keys of the `magicNumbers` table. -/
def magicNumbers : List (List Char) :=
  ["25504446".data, "FFD8FF".data, "89504E47".data,
   "3C737667".data, "D0CF11E0".data, "504B0304".data]

/-- `validateMagicNumbers`: hex-encode the first 4 bytes and test whether the
header starts with any known signature. -/
def validateMagicNumbers (file : JSFile) : Bool :=
  let header := ((file.bytes.take 4).map byteToHex).flatten
  magicNumbers.any (fun magic => magic.isPrefixOf header)

/-- The character class `\s` of the scanner's regular expressions (the ASCII
part; the claims only involve ASCII content). -/
def isJsSpace (c : Char) : Bool :=
  c = ' ' || c = '\t' || c = '\n' || c = '\r' || c = '\x0B' || c = '\x0C'

/-- The `\s*\/` tail shared by the three scanner regexes: skip whitespace,
then require a `'/'`. -/
def wsThenSlash : List Char → Bool
  | [] => false
  | c :: cs => if c = '/' then true else if isJsSpace c then wsThenSlash cs else false

/-- Case-insensitive match of a (lowercase) pattern at the head of the input;
returns the rest of the input on success. -/
def ciStarts : List Char → List Char → Option (List Char)
  | [], l => some l
  | _ :: _, [] => none
  | p :: ps, c :: cs => if c.toLower = p then ciStarts ps cs else none

/-- Match `pat` (case-insensitively) followed by `\s*\/` at the head. -/
def matchHere (pat : List Char) (l : List Char) : Bool :=
  match ciStarts pat l with
  | some rest => wsThenSlash rest
  | none => false

/-- `regex.test(content)`: the pattern-plus-`\s*\/` match found anywhere. -/
def hasMatch (pat : List Char) : List Char → Bool
  | [] => false
  | c :: cs => matchHere pat (c :: cs) || hasMatch pat cs

/-- The three scanner regexes `/\/JavaScript\s*\//i`, `/\/JS\s*\//i`,
`/\/AA\s*\//i`, by their (lowercased) literal parts. -/
def jsPatterns : List (List Char) := ["/javascript".data, "/js".data, "/aa".data]

/-- The `hasJS` disjunction of `scanPDF`. -/
def hasJS (content : List Char) : Bool :=
  jsPatterns.any (fun p => hasMatch p content)

/-- `scanPDF`: on the text of the first 100 KiB, require `%PDF` and `%%EOF`
and no script marker. -/
def scanPDF (file : JSFile) : Bool :=
  let content := textOf (file.bytes.take (1024 * 100))
  let hasPDFHeader := containsSeq "%PDF".data content
  let hasPDFFooter := containsSeq "%%EOF".data content
  let hasScript := hasJS content
  hasPDFHeader && hasPDFFooter && !hasScript

/-- `scanForMalware`: only files whose declared MIME type is
`application/pdf` are scanned; everything else passes. -/
def scanForMalware (file : JSFile) : Bool :=
  if file.type == "application/pdf" then scanPDF file else true

/-- `formatBytes`.  The index `i = Math.floor(Math.log(bytes)/Math.log(1024))`
is written by threshold comparison (equal for every argument below
`1024^4`, the range the `sizes` array covers), and `Math.round` is
round-half-up, `(2*n + p) / (2*p)` in integer arithmetic. -/
def formatBytes (bytes : Nat) : String :=
  let sizes := ["Bytes", "KB", "MB", "GB"]
  if bytes = 0 then "0 Byte"
  else
    let i := if bytes < 1024 then 0
             else if bytes < 1024 * 1024 then 1
             else if bytes < 1024 * 1024 * 1024 then 2 else 3
    let p := 1024 ^ i
    toString ((2 * bytes + p) / (2 * p)) ++ " " ++ sizes.getD i ""

/-- The size-check failure message pushed by `validateFile`. -/
def sizeMsg : String := "File too large (max " ++ formatBytes config.maxSize ++ ")"

/-- The extension-check failure message. -/
def extMsg : String := "File type not allowed"

/-- The MIME-check failure message. -/
def mimeMsg : String := "File MIME type not allowed"

/-- The magic-number-check failure message. -/
def magicMsg : String := "File signature mismatch"

/-- The XSS-check failure message. -/
def xssMsg : String := "File contains potentially dangerous content"

/-- The malware-scan failure message. -/
def scanMsg : String := "File failed security scan"

/-- The `errors` array built by `validateFile`: each check pushes its message
when it fails, in source order. -/
def computeErrors (file : JSFile) : List String :=
  (if file.size > config.maxSize then [sizeMsg] else [])
  ++ (if isAllowedExtension file.name then [] else [extMsg])
  ++ (if isAllowedMimeType file.type then [] else [mimeMsg])
  ++ (if config.validateMagicNumbers then
        (if validateMagicNumbers file then [] else [magicMsg]) else [])
  ++ (if XSSProtection.validateFile file then [] else [xssMsg])
  ++ (if config.scanForMalware then
        (if scanForMalware file then [] else [scanMsg]) else [])

/-- The object returned by `validateFile`. -/
structure ValidationResult where
  isValid : Bool
  errors : List String
  file : JSFile

/-- `FileValidator.validateFile`: run all checks, return the accumulated
error list and `isValid = (errors.length === 0)`. -/
def validateFile (file : JSFile) : ValidationResult :=
  let errors := computeErrors file
  { isValid := errors.length == 0, errors := errors, file := file }

/-- The six checks of `validateFile`, in source order, each paired with the
message it pushes on failure (`true` = passed).  The two config-gated checks
count as passed when their gate is off. -/
def checkList (file : JSFile) : List (Bool × String) :=
  [ (!decide (file.size > config.maxSize), sizeMsg),
    (isAllowedExtension file.name, extMsg),
    (isAllowedMimeType file.type, mimeMsg),
    (!config.validateMagicNumbers || validateMagicNumbers file, magicMsg),
    (XSSProtection.validateFile file, xssMsg),
    (!config.scanForMalware || scanForMalware file, scanMsg) ]

end FileValidator

namespace MemoryMonitor

/-- `this.memoryLimit = 500 * 1024 * 1024`. -/
def memoryLimit : Nat := 500 * 1024 * 1024

/-- `this.criticalThreshold = 0.9`.  (The IEEE-754 product
`0.9 * 524288000` is exactly `471859200`, so the exact rational model agrees
with the float computation.) -/
def criticalThreshold : ℚ := 0.9

/-- `isMemoryCritical`: compare a heap sample against the fixed threshold;
`false` when `performance.memory` is unavailable. -/
def isMemoryCritical (perfMemory : Option Nat) : Bool :=
  match perfMemory with
  | some used => decide ((used : ℚ) > (memoryLimit : ℚ) * criticalThreshold)
  | none => false

end MemoryMonitor

namespace Converter

/-- `A4_WIDTH = 210 * 2.83465` (points). -/
def A4_WIDTH : ℚ := 210 * 2.83465

/-- `A4_HEIGHT = 297 * 2.83465` (points). -/
def A4_HEIGHT : ℚ := 297 * 2.83465

/-- A decoded image: its pixel dimensions. -/
structure ImgFile where
  width : ℚ
  height : ℚ
deriving DecidableEq

/-- One `pdf.addImage(dataUrl, 'JPEG', x, y, w, h)` call recorded on a page. -/
structure Placement where
  img : ImgFile
  x : ℚ
  y : ℚ
  w : ℚ
  h : ℚ
deriving DecidableEq

/-- `scale = Math.min(A4_WIDTH / width, A4_HEIGHT / height)`. -/
def fitScale (w h : ℚ) : ℚ := min (A4_WIDTH / w) (A4_HEIGHT / h)

/-- The loop body's geometry: `width *= scale; height *= scale`, placed at
the origin. -/
def placeImage (im : ImgFile) : Placement :=
  let scale := fitScale im.width im.height
  { img := im, x := 0, y := 0, w := im.width * scale, h := im.height * scale }

/-- A jsPDF document: finished pages plus the current page. -/
structure Doc where
  done : List (List Placement)
  current : List Placement
deriving DecidableEq

/-- `pdf.addPage()`: finish the current page, start an empty one. -/
def Doc.addPage (d : Doc) : Doc := { done := d.done ++ [d.current], current := [] }

/-- `pdf.addImage(...)`: draw on the current page. -/
def Doc.addImage (d : Doc) (p : Placement) : Doc :=
  { done := d.done, current := d.current ++ [p] }

/-- All pages of the document, in order. -/
def Doc.pages (d : Doc) : List (List Placement) := d.done ++ [d.current]

/-- The `for (let i = 0; ...)` loop of `convertImagesToPdf`: for each image,
`addPage` unless it is the first (`i > 0`), then `addImage`. -/
def convertGo (i : Nat) (images : List ImgFile) (d : Doc) : Doc :=
  match images with
  | [] => d
  | im :: rest =>
      let d1 := if i > 0 then d.addPage else d
      let d2 := d1.addImage (placeImage im)
      convertGo (i + 1) rest d2

/-- `convertImagesToPdf`: `new jsPDF()` starts with one empty page, then the
loop above runs over the images in input order. -/
def convertImagesToPdf (images : List ImgFile) : Doc :=
  convertGo 0 images { done := [], current := [] }

end Converter

/-! ## Helper lemmas -/

theorem Char.toNat_ofNat_valid (n : Nat) (h : n.isValidChar) :
    (Char.ofNat n).toNat = n := by
  simp [Char.ofNat, dif_pos h, Char.ofNatAux, Char.toNat, UInt32.toNat, BitVec.toNat_ofNatLt]

theorem Char.toLower_ne_dot (c : Char) (h : c ≠ '.') : c.toLower ≠ '.' := by
  unfold Char.toLower
  simp only
  split
  · rename_i hv
    intro hc
    have hval : Nat.isValidChar (c.toNat + 32) := by
      left
      omega
    have h46 : (Char.ofNat (c.toNat + 32)).toNat = c.toNat + 32 :=
      Char.toNat_ofNat_valid _ hval
    rw [hc] at h46
    have hd : ('.').toNat = 46 := by decide
    omega
  · exact h

theorem containsSeq_eq_true_iff (pat l : List Char) :
    containsSeq pat l = true ↔ ∃ pre post, l = pre ++ pat ++ post := by
  induction l with
  | nil =>
      simp only [containsSeq, List.isEmpty_iff]
      constructor
      · intro h
        exact ⟨[], [], by simp [h]⟩
      · rintro ⟨pre, post, h⟩
        rcases List.append_eq_nil.mp (List.append_eq_nil.mp h.symm).1 with ⟨-, h2⟩
        exact h2
  | cons c cs ih =>
      simp only [containsSeq, Bool.or_eq_true, List.isPrefixOf_iff_prefix, ih]
      constructor
      · rintro (⟨t, ht⟩ | ⟨pre, post, h⟩)
        · exact ⟨[], t, by simp [ht]⟩
        · exact ⟨c :: pre, post, by simp [h]⟩
      · rintro ⟨pre, post, h⟩
        match pre, h with
        | [], h => exact Or.inl ⟨post, by simpa using h.symm⟩
        | p :: pre', h =>
            right
            refine ⟨pre', post, ?_⟩
            simp only [List.cons_append, List.cons.injEq] at h
            exact h.2

theorem containsSeq_of_take {pat l : List Char} {n : Nat}
    (h : containsSeq pat (l.take n) = true) : containsSeq pat l = true := by
  rcases (containsSeq_eq_true_iff pat (l.take n)).mp h with ⟨pre, post, hp⟩
  refine (containsSeq_eq_true_iff pat l).mpr ⟨pre, post ++ l.drop n, ?_⟩
  conv_lhs => rw [← List.take_append_drop n l]
  rw [hp]
  simp

namespace FileValidator

theorem validateFile_errors_eq (f : JSFile) :
    (validateFile f).errors = computeErrors f := rfl

theorem validateFile_isValid_iff (f : JSFile) :
    (validateFile f).isValid = true ↔ (validateFile f).errors = [] := by
  simp [validateFile, List.length_eq_zero]

theorem validateFile_isValid_false_of_mem {f : JSFile} {m : String}
    (h : m ∈ (validateFile f).errors) : (validateFile f).isValid = false := by
  rw [Bool.eq_false_iff]
  intro hv
  rw [(validateFile_isValid_iff f).mp hv] at h
  exact List.not_mem_nil m h

theorem mem_ite_pos {α : Type} {m x : α} {c : Prop} [Decidable c] :
    m ∈ (if c then [x] else []) ↔ c ∧ m = x := by
  split <;> simp_all

theorem mem_ite_neg {α : Type} {m x : α} {c : Prop} [Decidable c] :
    m ∈ (if c then [] else [x]) ↔ ¬c ∧ m = x := by
  split <;> simp_all

theorem sizeMsg_eq : sizeMsg = "File too large (max 100 MB)" := by rfl

theorem config_scan_on : config.scanForMalware = true := rfl

theorem config_magic_on : config.validateMagicNumbers = true := rfl

theorem sizeMsg_mem_iff (f : JSFile) :
    sizeMsg ∈ computeErrors f ↔ f.size > config.maxSize := by
  have h1 : sizeMsg ≠ extMsg := by rw [sizeMsg_eq]; unfold extMsg; decide
  have h2 : sizeMsg ≠ mimeMsg := by rw [sizeMsg_eq]; unfold mimeMsg; decide
  have h3 : sizeMsg ≠ magicMsg := by rw [sizeMsg_eq]; unfold magicMsg; decide
  have h4 : sizeMsg ≠ xssMsg := by rw [sizeMsg_eq]; unfold xssMsg; decide
  have h5 : sizeMsg ≠ scanMsg := by rw [sizeMsg_eq]; unfold scanMsg; decide
  unfold computeErrors
  simp only [List.mem_append, config_scan_on, config_magic_on, eq_self_iff_true, reduceIte,
    mem_ite_pos, mem_ite_neg, h1, h2, h3, h4, h5, and_true, and_false, or_false, false_or]

theorem extMsg_mem_iff (f : JSFile) :
    extMsg ∈ computeErrors f ↔ isAllowedExtension f.name = false := by
  have h1 : extMsg ≠ sizeMsg := by rw [sizeMsg_eq]; unfold extMsg; decide
  have h2 : extMsg ≠ mimeMsg := by unfold extMsg mimeMsg; decide
  have h3 : extMsg ≠ magicMsg := by unfold extMsg magicMsg; decide
  have h4 : extMsg ≠ xssMsg := by unfold extMsg xssMsg; decide
  have h5 : extMsg ≠ scanMsg := by unfold extMsg scanMsg; decide
  unfold computeErrors
  simp only [List.mem_append, config_scan_on, config_magic_on, eq_self_iff_true, reduceIte,
    mem_ite_pos, mem_ite_neg, h1, h2, h3, h4, h5, and_true, and_false, or_false, false_or,
    Bool.not_eq_true]

theorem xssMsg_mem_iff (f : JSFile) :
    xssMsg ∈ computeErrors f ↔ XSSProtection.validateFile f = false := by
  have h1 : xssMsg ≠ sizeMsg := by rw [sizeMsg_eq]; unfold xssMsg; decide
  have h2 : xssMsg ≠ extMsg := by unfold xssMsg extMsg; decide
  have h3 : xssMsg ≠ mimeMsg := by unfold xssMsg mimeMsg; decide
  have h4 : xssMsg ≠ magicMsg := by unfold xssMsg magicMsg; decide
  have h5 : xssMsg ≠ scanMsg := by unfold xssMsg scanMsg; decide
  unfold computeErrors
  simp only [List.mem_append, config_scan_on, config_magic_on, eq_self_iff_true, reduceIte,
    mem_ite_pos, mem_ite_neg, h1, h2, h3, h4, h5, and_true, and_false, or_false, false_or,
    Bool.not_eq_true]

theorem scanMsg_mem_iff (f : JSFile) :
    scanMsg ∈ computeErrors f ↔ scanForMalware f = false := by
  have h1 : scanMsg ≠ sizeMsg := by rw [sizeMsg_eq]; unfold scanMsg; decide
  have h2 : scanMsg ≠ extMsg := by unfold scanMsg extMsg; decide
  have h3 : scanMsg ≠ mimeMsg := by unfold scanMsg mimeMsg; decide
  have h4 : scanMsg ≠ magicMsg := by unfold scanMsg magicMsg; decide
  have h5 : scanMsg ≠ xssMsg := by unfold scanMsg xssMsg; decide
  unfold computeErrors
  simp only [List.mem_append, config_scan_on, config_magic_on, eq_self_iff_true, reduceIte,
    mem_ite_pos, mem_ite_neg, h1, h2, h3, h4, h5, and_true, and_false, or_false, false_or,
    Bool.not_eq_true]

theorem computeErrors_eq_failed_checks (f : JSFile) :
    computeErrors f = ((checkList f).filter (fun c => !c.1)).map (fun c => c.2) := by
  unfold computeErrors checkList
  by_cases hs : f.size > config.maxSize <;>
    cases he : isAllowedExtension f.name <;>
    cases hm : isAllowedMimeType f.type <;>
    cases hg : validateMagicNumbers f <;>
    cases hx : XSSProtection.validateFile f <;>
    cases hc : scanForMalware f <;>
    simp [hs, he, hm, hg, hx, hc, config_scan_on, config_magic_on, List.filter]

/-- C1: `validateFile` evaluates all of its checks: the returned error list is
exactly the list of messages of the failing checks, in check order (one reason
per failing check, never just the first), and `isValid` is `true` if and only
if the error list is empty. -/
theorem validateFile_accumulates_all_checks (f : JSFile) :
    (validateFile f).errors
        = ((checkList f).filter (fun c => !c.1)).map (fun c => c.2)
    ∧ ((validateFile f).isValid = true ↔ (validateFile f).errors = []) := by
  constructor
  · rw [validateFile_errors_eq]
    exact computeErrors_eq_failed_checks f
  · exact validateFile_isValid_iff f

/-- C6: a file whose reported size strictly exceeds `100 * 1024 * 1024` bytes
is rejected with the size-limit reason in the error list; a file of at most
that size never receives the size-limit reason. -/
theorem size_ceiling_rejection (f : JSFile) :
    (f.size > 100 * 1024 * 1024 →
        (validateFile f).isValid = false ∧ sizeMsg ∈ (validateFile f).errors)
    ∧ (f.size ≤ 100 * 1024 * 1024 → sizeMsg ∉ (validateFile f).errors) := by
  constructor
  · intro h
    have hmem : sizeMsg ∈ (validateFile f).errors := by
      rw [validateFile_errors_eq]
      exact (sizeMsg_mem_iff f).mpr h
    exact ⟨validateFile_isValid_false_of_mem hmem, hmem⟩
  · intro h hmem
    rw [validateFile_errors_eq] at hmem
    have h2 := (sizeMsg_mem_iff f).mp hmem
    have hmax : config.maxSize = 100 * 1024 * 1024 := rfl
    omega

/-- C6 witness: a file of `100 MiB + 1` bytes is rejected with the size
reason; a file of exactly `100 MiB` does not get the size reason. -/
theorem size_ceiling_rejection_witness :
    ((JSFile.mk "a.pdf" "application/pdf" (100 * 1024 * 1024 + 1) []).size
        > 100 * 1024 * 1024
      ∧ (validateFile (JSFile.mk "a.pdf" "application/pdf" (100 * 1024 * 1024 + 1) [])).isValid
          = false
      ∧ sizeMsg ∈ (validateFile (JSFile.mk "a.pdf" "application/pdf"
          (100 * 1024 * 1024 + 1) [])).errors)
    ∧ ((JSFile.mk "a.pdf" "application/pdf" (100 * 1024 * 1024) []).size
        ≤ 100 * 1024 * 1024
      ∧ sizeMsg ∉ (validateFile (JSFile.mk "a.pdf" "application/pdf"
          (100 * 1024 * 1024) [])).errors) := by
  refine ⟨⟨by norm_num, ?_, ?_⟩, ⟨by norm_num, ?_⟩⟩
  · exact ((size_ceiling_rejection _).1 (by norm_num)).1
  · exact ((size_ceiling_rejection _).1 (by norm_num)).2
  · exact (size_ceiling_rejection _).2 (by norm_num)

/-- C7: a file whose lowercase extension is not in the allow-list is rejected
with the extension reason, whatever its declared MIME type (the MIME type is a
separate field of the file and the statement quantifies over all of them). -/
theorem disallowed_extension_rejection (f : JSFile)
    (h : isAllowedExtension f.name = false) :
    (validateFile f).isValid = false ∧ extMsg ∈ (validateFile f).errors := by
  have hmem : extMsg ∈ (validateFile f).errors := by
    rw [validateFile_errors_eq]
    exact (extMsg_mem_iff f).mpr h
  exact ⟨validateFile_isValid_false_of_mem hmem, hmem⟩

/-- C7 witness: `evil.xyz` is rejected even with an allow-listed MIME type. -/
theorem disallowed_extension_rejection_witness :
    isAllowedExtension "evil.xyz" = false
    ∧ (validateFile (JSFile.mk "evil.xyz" "application/pdf" 0 [])).isValid = false
    ∧ extMsg ∈ (validateFile (JSFile.mk "evil.xyz" "application/pdf" 0 [])).errors := by
  refine ⟨by decide, ?_, ?_⟩
  · exact (disallowed_extension_rejection _ (by decide)).1
  · exact (disallowed_extension_rejection _ (by decide)).2

/-- C10: beyond the five documented checks, `validateFile` also rejects every
file whose lowercased name ends with a dangerous extension
(`.exe`, `.bat`, `.cmd`, `.sh`, `.php`, `.js`, `.html`, `.htm`, `.vbs`,
`.ps1`, `.jar`, `.py`), pushing the reason
`File contains potentially dangerous content`, for every file (whatever the
other checks decide). -/
theorem dangerous_extension_rejection (f : JSFile)
    (h : ∃ e ∈ XSSProtection.dangerousExtensions,
        e.data.isSuffixOf (f.name.data.map Char.toLower) = true) :
    (validateFile f).isValid = false ∧ xssMsg ∈ (validateFile f).errors := by
  have hx : XSSProtection.validateFile f = false := by
    simp only [XSSProtection.validateFile, Bool.not_eq_false', List.any_eq_true]
    exact h
  have hmem : xssMsg ∈ (validateFile f).errors := by
    rw [validateFile_errors_eq]
    exact (xssMsg_mem_iff f).mpr hx
  exact ⟨validateFile_isValid_false_of_mem hmem, hmem⟩

/-- C10 witness: `payload.exe` is rejected with the dangerous-content reason
even though every other check's input is unrestricted here. -/
theorem dangerous_extension_rejection_witness :
    (∃ e ∈ XSSProtection.dangerousExtensions,
        e.data.isSuffixOf ("payload.exe".data.map Char.toLower) = true)
    ∧ (validateFile (JSFile.mk "payload.exe" "application/pdf" 0 [])).isValid = false
    ∧ xssMsg ∈ (validateFile (JSFile.mk "payload.exe" "application/pdf" 0 [])).errors := by
  refine ⟨⟨".exe", by decide, by decide⟩, ?_, ?_⟩
  · exact (dangerous_extension_rejection _ ⟨".exe", by decide, by decide⟩).1
  · exact (dangerous_extension_rejection _ ⟨".exe", by decide, by decide⟩).2

theorem scanPDF_eq_false_of_no_footer {f : JSFile}
    (heof : containsSeq "%%EOF".data (textOf f.bytes) = false) :
    scanPDF f = false := by
  have hp : containsSeq "%%EOF".data (textOf (f.bytes.take (1024 * 100))) = false := by
    cases hc : containsSeq "%%EOF".data (textOf (f.bytes.take (1024 * 100))) with
    | false => rfl
    | true =>
        exfalso
        have hmap : textOf (f.bytes.take (1024 * 100))
            = (textOf f.bytes).take (1024 * 100) := by
          simp [textOf, List.map_take]
        rw [hmap] at hc
        have hfull := containsSeq_of_take hc
        rw [heof] at hfull
        exact Bool.noConfusion hfull
  simp only [scanPDF, hp, Bool.and_false, Bool.false_and]

/-- C2 counterexample: a file whose first 4 bytes are `%PDF` and whose content
nowhere contains `%%EOF`, but whose declared MIME type is not
`application/pdf` — `scanForMalware` skips the content scan, so the
content-scan reason does not appear (refuting the claim, which quantifies over
every such file). -/
theorem pdf_without_footer_skipped_for_other_mime_cex :
    (JSFile.mk "a.pdf" "" 4 [0x25, 0x50, 0x44, 0x46]).bytes.take 4
        = [0x25, 0x50, 0x44, 0x46]
    ∧ containsSeq "%%EOF".data
        (textOf (JSFile.mk "a.pdf" "" 4 [0x25, 0x50, 0x44, 0x46]).bytes) = false
    ∧ scanMsg ∉ (validateFile (JSFile.mk "a.pdf" "" 4 [0x25, 0x50, 0x44, 0x46])).errors := by
  decide

/-- C2 (amended): for a file whose declared MIME type is `application/pdf`,
whose first 4 bytes are `0x25 0x50 0x44 0x46` (`%PDF`) and whose content does
not contain `%%EOF`, `validateFile` rejects the file with the content-scan
reason in the returned reasons list. -/
theorem pdf_without_footer_rejection (f : JSFile)
    (hty : f.type = "application/pdf")
    (_hhdr : f.bytes.take 4 = [0x25, 0x50, 0x44, 0x46])
    (heof : containsSeq "%%EOF".data (textOf f.bytes) = false) :
    (validateFile f).isValid = false ∧ scanMsg ∈ (validateFile f).errors := by
  have hscan : scanForMalware f = false := by
    unfold scanForMalware
    rw [hty, if_pos (by decide)]
    exact scanPDF_eq_false_of_no_footer heof
  have hmem : scanMsg ∈ (validateFile f).errors := by
    rw [validateFile_errors_eq]
    exact (scanMsg_mem_iff f).mpr hscan
  exact ⟨validateFile_isValid_false_of_mem hmem, hmem⟩

/-- C2 witness: a 4-byte `%PDF` file declared as `application/pdf` with no
`%%EOF` is rejected with the content-scan reason. -/
theorem pdf_without_footer_rejection_witness :
    (JSFile.mk "a.pdf" "application/pdf" 4 [0x25, 0x50, 0x44, 0x46]).type
        = "application/pdf"
    ∧ (JSFile.mk "a.pdf" "application/pdf" 4 [0x25, 0x50, 0x44, 0x46]).bytes.take 4
        = [0x25, 0x50, 0x44, 0x46]
    ∧ containsSeq "%%EOF".data
        (textOf (JSFile.mk "a.pdf" "application/pdf" 4 [0x25, 0x50, 0x44, 0x46]).bytes)
        = false
    ∧ (validateFile (JSFile.mk "a.pdf" "application/pdf" 4
        [0x25, 0x50, 0x44, 0x46])).isValid = false
    ∧ scanMsg ∈ (validateFile (JSFile.mk "a.pdf" "application/pdf" 4
        [0x25, 0x50, 0x44, 0x46])).errors := by
  refine ⟨rfl, by decide, by decide, ?_, ?_⟩
  · exact (pdf_without_footer_rejection _ rfl (by decide) (by decide)).1
  · exact (pdf_without_footer_rejection _ rfl (by decide) (by decide)).2

theorem ciStarts_append (occ rest : List Char) :
    ciStarts (occ.map Char.toLower) (occ ++ rest) = some rest := by
  induction occ with
  | nil => rfl
  | cons c cs ih => simp [ciStarts, ih]

theorem wsThenSlash_append (ws post : List Char)
    (hws : ∀ c ∈ ws, isJsSpace c = true) :
    wsThenSlash (ws ++ '/' :: post) = true := by
  induction ws with
  | nil => rfl
  | cons c cs ih =>
      have hc := hws c (by simp)
      by_cases h : c = '/'
      · simp [wsThenSlash, h]
      · simp only [List.cons_append, wsThenSlash, if_neg h, hc, if_true]
        exact ih (fun d hd => hws d (by simp [hd]))

theorem matchHere_of_marker (occ ws post : List Char)
    (hws : ∀ c ∈ ws, isJsSpace c = true) :
    matchHere (occ.map Char.toLower) (occ ++ (ws ++ '/' :: post)) = true := by
  unfold matchHere
  rw [ciStarts_append occ (ws ++ '/' :: post)]
  exact wsThenSlash_append ws post hws

theorem hasMatch_of_marker (pre occ ws post : List Char)
    (hws : ∀ c ∈ ws, isJsSpace c = true) :
    hasMatch (occ.map Char.toLower) (pre ++ (occ ++ (ws ++ '/' :: post))) = true := by
  induction pre with
  | nil =>
      simp only [List.nil_append]
      cases hl : occ ++ (ws ++ '/' :: post) with
      | nil =>
          exfalso
          rcases List.append_eq_nil.mp hl with ⟨-, h2⟩
          rcases List.append_eq_nil.mp h2 with ⟨-, h3⟩
          exact List.cons_ne_nil _ _ h3
      | cons c cs =>
          simp only [hasMatch, Bool.or_eq_true]
          left
          rw [← hl]
          exact matchHere_of_marker occ ws post hws
  | cons c cs ih =>
      simp only [List.cons_append, hasMatch, Bool.or_eq_true]
      right
      exact ih

theorem hasJS_of_marker {content : List Char}
    (h : ∃ pat ∈ jsPatterns, ∃ pre occ ws post,
        content = pre ++ (occ ++ (ws ++ '/' :: post))
        ∧ occ.map Char.toLower = pat
        ∧ ∀ c ∈ ws, isJsSpace c = true) :
    hasJS content = true := by
  obtain ⟨pat, hpat, pre, occ, ws, post, hcontent, hocc, hws⟩ := h
  unfold hasJS
  refine List.any_eq_true.mpr ⟨pat, hpat, ?_⟩
  rw [hcontent, ← hocc]
  exact hasMatch_of_marker pre occ ws post hws

theorem scanPDF_eq_false_of_hasJS {f : JSFile}
    (h : hasJS (textOf (f.bytes.take (1024 * 100))) = true) :
    scanPDF f = false := by
  simp only [scanPDF, h, Bool.not_true, Bool.and_false]

/-- C3 counterexample: a PDF-typed file whose first 100 KiB contains the
case-insensitive pattern `/JS` (here `/JS x`, with no following slash): the
scanner regexes require a trailing `/` after optional whitespace, so the scan
passes, the content-scan reason is absent, and the file is even accepted. -/
theorem pdf_script_marker_without_slash_cex :
    containsSeq "/js".data
        ((textOf ((JSFile.mk "a.pdf" "application/pdf" 20
            ("%PDF-1.4 /JS x %%EOF".data.map Char.toNat)).bytes.take
              (1024 * 100))).map Char.toLower) = true
    ∧ scanPDF (JSFile.mk "a.pdf" "application/pdf" 20
        ("%PDF-1.4 /JS x %%EOF".data.map Char.toNat)) = true
    ∧ scanMsg ∉ (validateFile (JSFile.mk "a.pdf" "application/pdf" 20
        ("%PDF-1.4 /JS x %%EOF".data.map Char.toNat))).errors
    ∧ (validateFile (JSFile.mk "a.pdf" "application/pdf" 20
        ("%PDF-1.4 /JS x %%EOF".data.map Char.toNat))).isValid = true := by
  decide

/-- C3 (amended): for a file of declared MIME type `application/pdf` whose
first 100 KiB contains one of the case-insensitive markers `/JavaScript`,
`/JS` or `/AA` followed by optional whitespace and a `/` (the scanner
regexes `/\/JavaScript\s*\//i`, `/\/JS\s*\//i`, `/\/AA\s*\//i`), the
content scan fails and `validateFile` rejects the file with the content-scan
reason in the returned reasons list. -/
theorem pdf_script_marker_rejection (f : JSFile)
    (hty : f.type = "application/pdf")
    (h : ∃ pat ∈ jsPatterns, ∃ pre occ ws post,
        textOf (f.bytes.take (1024 * 100)) = pre ++ (occ ++ (ws ++ '/' :: post))
        ∧ occ.map Char.toLower = pat
        ∧ ∀ c ∈ ws, isJsSpace c = true) :
    scanPDF f = false
    ∧ (validateFile f).isValid = false
    ∧ scanMsg ∈ (validateFile f).errors := by
  have hspdf := scanPDF_eq_false_of_hasJS (hasJS_of_marker h)
  have hscan : scanForMalware f = false := by
    unfold scanForMalware
    rw [hty, if_pos (by decide)]
    exact hspdf
  have hmem : scanMsg ∈ (validateFile f).errors := by
    rw [validateFile_errors_eq]
    exact (scanMsg_mem_iff f).mpr hscan
  exact ⟨hspdf, validateFile_isValid_false_of_mem hmem, hmem⟩

/-- C3 witness: a PDF-typed file containing `/JS/` is rejected with the
content-scan reason. -/
theorem pdf_script_marker_rejection_witness :
    (JSFile.mk "a.pdf" "application/pdf" 8 ("ab/JS/cd".data.map Char.toNat)).type
        = "application/pdf"
    ∧ (∃ pat ∈ jsPatterns, ∃ pre occ ws post,
        textOf ((JSFile.mk "a.pdf" "application/pdf" 8
            ("ab/JS/cd".data.map Char.toNat)).bytes.take (1024 * 100))
          = pre ++ (occ ++ (ws ++ '/' :: post))
        ∧ occ.map Char.toLower = pat
        ∧ ∀ c ∈ ws, isJsSpace c = true)
    ∧ scanPDF (JSFile.mk "a.pdf" "application/pdf" 8
        ("ab/JS/cd".data.map Char.toNat)) = false
    ∧ (validateFile (JSFile.mk "a.pdf" "application/pdf" 8
        ("ab/JS/cd".data.map Char.toNat))).isValid = false
    ∧ scanMsg ∈ (validateFile (JSFile.mk "a.pdf" "application/pdf" 8
        ("ab/JS/cd".data.map Char.toNat))).errors := by
  have hdec : ∃ pat ∈ jsPatterns, ∃ pre occ ws post,
      textOf ((JSFile.mk "a.pdf" "application/pdf" 8
          ("ab/JS/cd".data.map Char.toNat)).bytes.take (1024 * 100))
        = pre ++ (occ ++ (ws ++ '/' :: post))
      ∧ occ.map Char.toLower = pat
      ∧ ∀ c ∈ ws, isJsSpace c = true :=
    ⟨"/js".data, by decide,
     "ab".data, "/JS".data, [], "cd".data, by decide, by decide, by decide⟩
  have hmain := pdf_script_marker_rejection _ rfl hdec
  exact ⟨rfl, hdec, hmain.1, hmain.2.1, hmain.2.2⟩

theorem jsSplitDot_ne_nil (l : List Char) : jsSplitDot l ≠ [] := by
  cases l with
  | nil => simp [jsSplitDot]
  | cons c cs =>
      unfold jsSplitDot
      split
      · simp
      · cases h : jsSplitDot cs <;> simp [h]

theorem jsSplitDot_no_dot {l : List Char} (h : '.' ∉ l) : jsSplitDot l = [l] := by
  induction l with
  | nil => rfl
  | cons c cs ih =>
      have hc : c ≠ '.' := fun e => h (by simp [e])
      have hcs : '.' ∉ cs := fun hm => h (by simp [hm])
      unfold jsSplitDot
      rw [if_neg hc, ih hcs]

theorem jsSplitDot_concat_dot (l : List Char) :
    jsSplitDot (l ++ ['.']) = jsSplitDot l ++ [[]] := by
  induction l with
  | nil => rfl
  | cons c cs ih =>
      by_cases hc : c = '.'
      · subst hc
        simp [jsSplitDot, ih]
      · obtain ⟨seg, rest, hsr⟩ : ∃ seg rest, jsSplitDot cs = seg :: rest := by
          cases h : jsSplitDot cs with
          | nil => exact absurd h (jsSplitDot_ne_nil cs)
          | cons seg rest => exact ⟨seg, rest, rfl⟩
        simp [jsSplitDot, if_neg hc, ih, hsr]

/-- C9: the extension check takes the last `'.'`-separated segment of the
lowercased name: for a dotless filename the whole lowercased name is tested
(so a file literally named by an allow-listed extension, e.g. `pdf`, passes),
and for a filename ending in `'.'` the empty string is tested and the check
fails. -/
theorem dotless_extension_handling :
    (∀ name : String, '.' ∉ name.data →
        isAllowedExtension name
          = allowedExtensions.contains (String.mk (name.data.map Char.toLower)))
    ∧ (∀ s ∈ allowedExtensions, isAllowedExtension s = true)
    ∧ (∀ (name : String) (l : List Char), name.data = l ++ ['.'] →
        isAllowedExtension name = false) := by
  refine ⟨?_, by decide, ?_⟩
  · intro name h
    have h2 : '.' ∉ name.data.map Char.toLower := by
      intro hm
      rcases List.mem_map.mp hm with ⟨c, hc, he⟩
      by_cases hcd : c = '.'
      · rw [hcd] at hc
        exact h hc
      · exact Char.toLower_ne_dot c hcd he
    unfold isAllowedExtension
    rw [jsSplitDot_no_dot h2]
    rfl
  · intro name l h
    unfold isAllowedExtension
    rw [h, List.map_append, show ((['.'] : List Char).map Char.toLower) = ['.'] from rfl,
      jsSplitDot_concat_dot, List.getLastD_concat]
    decide

/-- C9 witness: the dotless name `pdf` is tested whole (and passes, being in
the allow-list); the name `a.` is tested as the empty extension and fails. -/
theorem dotless_extension_handling_witness :
    ('.' ∉ "pdf".data
      ∧ isAllowedExtension "pdf"
          = allowedExtensions.contains (String.mk ("pdf".data.map Char.toLower)))
    ∧ isAllowedExtension "pdf" = true
    ∧ ("a.".data = "a".data ++ ['.'] ∧ isAllowedExtension "a." = false) := by
  refine ⟨⟨by decide, ?_⟩, ?_, ⟨by decide, ?_⟩⟩
  · exact dotless_extension_handling.1 "pdf" (by decide)
  · exact dotless_extension_handling.2.1 "pdf" (by decide)
  · exact dotless_extension_handling.2.2 "a." "a".data (by decide)

end FileValidator

/-- C8: `isMemoryCritical` returns `true` exactly when a heap-usage sample is
available and strictly exceeds 90% of the 500 MiB budget
(`0.9 * 500 * 1024 * 1024` bytes). -/
theorem isMemoryCritical_iff_sample_exceeds_threshold (perfMemory : Option Nat) :
    MemoryMonitor.isMemoryCritical perfMemory = true
      ↔ ∃ used, perfMemory = some used
          ∧ (used : ℚ) > 0.9 * (500 * 1024 * 1024 : ℚ) := by
  have hval : (MemoryMonitor.memoryLimit : ℚ) * MemoryMonitor.criticalThreshold
      = 0.9 * (500 * 1024 * 1024 : ℚ) := by
    norm_num [MemoryMonitor.memoryLimit, MemoryMonitor.criticalThreshold]
  cases perfMemory with
  | none => simp [MemoryMonitor.isMemoryCritical]
  | some u =>
      simp only [MemoryMonitor.isMemoryCritical, decide_eq_true_eq, gt_iff_lt,
        Option.some.injEq]
      rw [hval]
      constructor
      · intro h
        exact ⟨u, rfl, h⟩
      · rintro ⟨v, hv, h⟩
        rw [hv]
        exact h

namespace Converter

/-- C4: every image with positive pixel dimensions is scaled by the single
uniform factor `min(A4_WIDTH / w, A4_HEIGHT / h)`: both placed dimensions are
the original ones times that factor, neither exceeds the page bound, and the
aspect ratio is preserved exactly (exact rational arithmetic). -/
theorem placed_image_fits_and_preserves_ratio (w h : ℚ) (hw : 0 < w) (hh : 0 < h) :
    (placeImage ⟨w, h⟩).w = w * fitScale w h
    ∧ (placeImage ⟨w, h⟩).h = h * fitScale w h
    ∧ (placeImage ⟨w, h⟩).w ≤ A4_WIDTH
    ∧ (placeImage ⟨w, h⟩).h ≤ A4_HEIGHT
    ∧ (placeImage ⟨w, h⟩).w / (placeImage ⟨w, h⟩).h = w / h := by
  have hW : (0 : ℚ) < A4_WIDTH := by norm_num [A4_WIDTH]
  have hH : (0 : ℚ) < A4_HEIGHT := by norm_num [A4_HEIGHT]
  have hs : 0 < fitScale w h := lt_min (div_pos hW hw) (div_pos hH hh)
  refine ⟨rfl, rfl, ?_, ?_, ?_⟩
  · show w * fitScale w h ≤ A4_WIDTH
    calc w * fitScale w h ≤ w * (A4_WIDTH / w) :=
          mul_le_mul_of_nonneg_left (min_le_left _ _) (le_of_lt hw)
      _ = A4_WIDTH := by field_simp
  · show h * fitScale w h ≤ A4_HEIGHT
    calc h * fitScale w h ≤ h * (A4_HEIGHT / h) :=
          mul_le_mul_of_nonneg_left (min_le_right _ _) (le_of_lt hh)
      _ = A4_HEIGHT := by field_simp
  · show (w * fitScale w h) / (h * fitScale w h) = w / h
    rw [mul_div_mul_right _ _ (ne_of_gt hs)]

/-- C4 witness: the 1000 × 2000 image of the specification. -/
theorem placed_image_fits_and_preserves_ratio_witness :
    (0 : ℚ) < 1000 ∧ (0 : ℚ) < 2000
    ∧ ((placeImage ⟨1000, 2000⟩).w = 1000 * fitScale 1000 2000
      ∧ (placeImage ⟨1000, 2000⟩).h = 2000 * fitScale 1000 2000
      ∧ (placeImage ⟨1000, 2000⟩).w ≤ A4_WIDTH
      ∧ (placeImage ⟨1000, 2000⟩).h ≤ A4_HEIGHT
      ∧ (placeImage ⟨1000, 2000⟩).w / (placeImage ⟨1000, 2000⟩).h = 1000 / 2000) := by
  exact ⟨by norm_num, by norm_num,
    placed_image_fits_and_preserves_ratio 1000 2000 (by norm_num) (by norm_num)⟩

theorem convertGo_pages_pos (images : List ImgFile) :
    ∀ (i : Nat) (d : Doc),
      (convertGo (i + 1) images d).pages
        = d.done ++ [d.current] ++ images.map (fun im => [placeImage im]) := by
  induction images with
  | nil =>
      intro i d
      simp [convertGo, Doc.pages]
  | cons im rest ih =>
      intro i d
      show (convertGo (i + 1 + 1) rest _).pages = _
      rw [ih]
      simp [Doc.addPage, Doc.addImage, Doc.pages]

/-- C5: for every non-empty list of images, the produced document has exactly
one page per image, in input order: page `i` holds exactly the placement of
image `i`, and the page count equals the image count. -/
theorem convertImagesToPdf_one_page_per_image (images : List ImgFile)
    (h : images ≠ []) :
    (convertImagesToPdf images).pages = images.map (fun im => [placeImage im])
    ∧ (convertImagesToPdf images).pages.length = images.length := by
  have hp : (convertImagesToPdf images).pages
      = images.map (fun im => [placeImage im]) := by
    cases images with
    | nil => exact absurd rfl h
    | cons im rest =>
        unfold convertImagesToPdf convertGo
        rw [if_neg (by omega)]
        show (convertGo (0 + 1) rest _).pages = _
        rw [convertGo_pages_pos]
        simp [Doc.addImage, Doc.pages]
  exact ⟨hp, by rw [hp, List.length_map]⟩

/-- C5 witness: three concrete images yield three pages in input order; a
single image yields one page. -/
theorem convertImagesToPdf_one_page_per_image_witness :
    (([⟨1000, 2000⟩, ⟨800, 600⟩, ⟨10, 10⟩] : List ImgFile) ≠ []
      ∧ (convertImagesToPdf [⟨1000, 2000⟩, ⟨800, 600⟩, ⟨10, 10⟩]).pages
          = ([⟨1000, 2000⟩, ⟨800, 600⟩, ⟨10, 10⟩] : List ImgFile).map
              (fun im => [placeImage im])
      ∧ (convertImagesToPdf [⟨1000, 2000⟩, ⟨800, 600⟩, ⟨10, 10⟩]).pages.length
          = ([⟨1000, 2000⟩, ⟨800, 600⟩, ⟨10, 10⟩] : List ImgFile).length)
    ∧ (([⟨1000, 2000⟩] : List ImgFile) ≠ []
      ∧ (convertImagesToPdf [⟨1000, 2000⟩]).pages
          = ([⟨1000, 2000⟩] : List ImgFile).map (fun im => [placeImage im])
      ∧ (convertImagesToPdf [⟨1000, 2000⟩]).pages.length
          = ([⟨1000, 2000⟩] : List ImgFile).length) := by
  refine ⟨⟨by decide, ?_, ?_⟩, ⟨by decide, ?_, ?_⟩⟩
  · exact (convertImagesToPdf_one_page_per_image _ (by decide)).1
  · exact (convertImagesToPdf_one_page_per_image _ (by decide)).2
  · exact (convertImagesToPdf_one_page_per_image _ (by decide)).1
  · exact (convertImagesToPdf_one_page_per_image _ (by decide)).2

end Converter
